import Mathlib

/-!
Verification development for the Copilot usage-metrics reporting client
(`copilot_metrics.py`).  The Python program is shallowly embedded: JSON
values become the inductive `JVal`, Python dicts become association lists,
machine integers are unbounded `Int` (Python ints are unbounded), fallible
code returns `Option`, and console warnings are counted.  External
collaborators (the HTTP transport and the JSON parser of the standard
library) are modelled as explicit oracles passed to the embedded
functions, exactly where the source calls `requests.get` and `json.loads`.
-/

/-- A JSON value as produced by `json.loads`: null, bool, integer, string,
array or object.  Non-integer numbers do not occur in the metric counters
this development reasons about and are not modelled. -/
inductive JVal where
  | jnull
  | jbool (b : Bool)
  | jnum (n : Int)
  | jstr (s : String)
  | jarr (elems : List JVal)
  | jobj (fields : List (String × JVal))

/-- A Python dict with string keys (a parsed JSON object), in insertion
order.  Keys are unique in any dict produced by `json.loads`. -/
abbrev JObj := List (String × JVal)

/-- Python `d.get(key, default)` on a dict. -/
def jget (r : JObj) (k : String) (d : JVal) : JVal :=
  (r.lookup k).getD d

/-- Python truthiness of a JSON value: `None`, `False`, `0`, `""`, `[]`
and `\x7b\x7d` are falsy, everything else truthy. -/
def truthy : JVal → Bool
  | .jnull => false
  | .jbool b => b
  | .jnum n => n != 0
  | .jstr s => !s.data.isEmpty
  | .jarr l => !l.isEmpty
  | .jobj o => !o.isEmpty

/-- Numeric view of a JSON value for Python integer addition `acc + v`:
ints are themselves, bools coerce (`True == 1`), anything else makes the
addition raise `TypeError` (modelled as `none`). -/
def toNum : JVal → Option Int
  | .jnum n => some n
  | .jbool b => some (if b then 1 else 0)
  | _ => none

/-- A hashable Python dict key as used for `user_stats[user_login]`.
Booleans collapse onto their numeric value because `True == 1` as a dict
key in Python. -/
inductive PyKey where
  | knull
  | knum (n : Int)
  | kstr (s : String)
deriving DecidableEq

/-- Key normalisation for using a JSON value as a Python dict key.
Lists and dicts are unhashable: using one as a key raises `TypeError`
(modelled as `none`). -/
def normKey : JVal → Option PyKey
  | .jnull => some .knull
  | .jbool b => some (.knum (if b then 1 else 0))
  | .jnum n => some (.knum n)
  | .jstr s => some (.kstr s)
  | .jarr _ => none
  | .jobj _ => none

/-- The per-user counter record that `print_usage_breakdown` initialises
for each new login (source lines 433-439). -/
@[ext]
structure UserStats where
  interactions : Int
  code_gen : Int
  code_accept : Int
  loc_added : Int
  loc_suggested : Int
deriving DecidableEq

/-- The all-zero counters a login starts with. -/
def initStats : UserStats := ⟨0, 0, 0, 0, 0⟩

/-- Python `acc + v` where `acc` is an int and `v` came from
`record.get(field, 0)`; raises (`none`) when `v` is non-numeric. -/
def pyAddInt (acc : Int) (v : JVal) : Option Int :=
  (toNum v).map (fun n => acc + n)

/-- The three `+=` statements of source lines 440-442, in order; the
record fields default to `0` when absent. -/
def updStats (s : UserStats) (r : JObj) : Option UserStats := do
  let i ← pyAddInt s.interactions (jget r "user_initiated_interaction_count" (.jnum 0))
  let g ← pyAddInt s.code_gen (jget r "code_generation_activity_count" (.jnum 0))
  let a ← pyAddInt s.code_accept (jget r "code_acceptance_activity_count" (.jnum 0))
  pure { s with interactions := i, code_gen := g, code_accept := a }

/-- The `user_stats` dict, modelled extensionally: the source only ever
looks logins up in it (`user_stats.get(login, ...)`), never iterates it. -/
abbrev AggState := PyKey → Option UserStats

/-- The empty `user_stats` dict of source line 428. -/
def emptyStats : AggState := fun _ => none

/-- Processing of one record of `users_metrics["data"]` (source lines
430-442): read `user_login` defaulting to `""`, create the zero entry on
first sighting, then increment the three counters. -/
def stepRecord (m : AggState) (r : JObj) : Option AggState :=
  match normKey (jget r "user_login" (.jstr "")) with
  | none => none
  | some key =>
    (updStats ((m key).getD initStats) r).map
      (fun s2 => fun k => if k = key then some s2 else m k)

/-- The `for record in users_metrics.get("data", [])` loop, threading the
`user_stats` dict; any raise aborts the whole aggregation. -/
def user_stats_fold (m : AggState) : List JObj → Option AggState
  | [] => some m
  | r :: rest =>
    match stepRecord m r with
    | none => none
    | some m2 => user_stats_fold m2 rest

/-- Building `user_stats` from the record list (source lines 428-442). -/
def user_stats_of (records : List JObj) : Option AggState :=
  user_stats_fold emptyStats records

/-- Proof helper: the three numeric field values of a record, or `none`
when one of the three `+=` would raise. -/
def numsOf (r : JObj) : Option (Int × Int × Int) :=
  match toNum (jget r "user_initiated_interaction_count" (.jnum 0)),
        toNum (jget r "code_generation_activity_count" (.jnum 0)),
        toNum (jget r "code_acceptance_activity_count" (.jnum 0)) with
  | some a, some b, some c => some (a, b, c)
  | _, _, _ => none

/-- Proof helper: add a numeric field triple onto a counter record. -/
def bumpStats (s : UserStats) (t : Int × Int × Int) : UserStats :=
  { s with interactions := s.interactions + t.1,
           code_gen := s.code_gen + t.2.1,
           code_accept := s.code_accept + t.2.2 }

/-- Proof helper: point update of the extensional `user_stats` dict. -/
def aggApplyAt (m : AggState) (key : PyKey) (t : Int × Int × Int) : AggState :=
  fun k => if k = key then some (bumpStats ((m key).getD initStats) t) else m k

/-- The dict key a record is aggregated under. -/
def loginKeyOf (r : JObj) : Option PyKey :=
  normKey (jget r "user_login" (.jstr ""))

/-- The claim's arithmetic sum of one field over the records of one
login, missing or non-numeric fields contributing `0` (spec section 8). -/
def sumField (records : List JObj) (login : PyKey) (field : String) : Int :=
  ((records.filter (fun r => decide (loginKeyOf r = some login))).map
    (fun r => (toNum (jget r field (.jnum 0))).getD 0)).sum

/-- The counters recorded for a login, zero-filled when absent. -/
def statsValue (m : AggState) (k : PyKey) : UserStats :=
  (m k).getD initStats

/-- Claim C2 as stated: aggregation succeeds and every login's three
counters equal the arithmetic sums of the corresponding fields, with
missing or non-numeric fields contributing zero. -/
def C2Claim (records : List JObj) : Prop :=
  ∃ m, user_stats_of records = some m ∧ ∀ login : PyKey,
    (statsValue m login).interactions
        = sumField records login "user_initiated_interaction_count" ∧
    (statsValue m login).code_gen
        = sumField records login "code_generation_activity_count" ∧
    (statsValue m login).code_accept
        = sumField records login "code_acceptance_activity_count"

/-- A record the aggregation loop accepts: a hashable login key and the
three counter fields numeric whenever present. -/
def RecordOk (r : JObj) : Bool :=
  (loginKeyOf r).isSome &&
  (toNum (jget r "user_initiated_interaction_count" (.jnum 0))).isSome &&
  (toNum (jget r "code_generation_activity_count" (.jnum 0))).isSome &&
  (toNum (jget r "code_acceptance_activity_count" (.jnum 0))).isSome

/-- Witness record: alice with 3 interactions. -/
def wrec1 : JObj :=
  [("user_login", .jstr "alice"), ("user_initiated_interaction_count", .jnum 3)]

/-- Witness record: bob with 5 code generations. -/
def wrec2 : JObj :=
  [("user_login", .jstr "bob"), ("code_generation_activity_count", .jnum 5)]

/-- Witness record: alice again, 4 interactions and 2 acceptances. -/
def wrec3 : JObj :=
  [("user_login", .jstr "alice"), ("user_initiated_interaction_count", .jnum 4),
   ("code_acceptance_activity_count", .jnum 2)]

/-- Counterexample record for C2: the interaction count is present but a
string, so the `+=` of source line 440 raises `TypeError`. -/
def badRecord : JObj :=
  [("user_login", .jstr "alice"), ("user_initiated_interaction_count", .jstr "x")]

/-- Python whitespace as stripped by `str.strip()` (ASCII part). -/
def pyIsSpace (c : Char) : Bool :=
  c = ' ' || c = '\t' || c = '\n' || c = '\r' || c = '\x0b' || c = '\x0c'

/-- Python `s.strip()` on the character list of a string. -/
def pyStrip (s : List Char) : List Char :=
  ((s.dropWhile pyIsSpace).reverse.dropWhile pyIsSpace).reverse

/-- Python `s.split('\n')`: splits on every newline, keeping empty
pieces; the empty string yields one empty piece. -/
def splitNl : List Char → List (List Char)
  | [] => [[]]
  | c :: rest =>
    match splitNl rest with
    | [] => []
    | l :: ls => if c = '\n' then [] :: l :: ls else (c :: l) :: ls

/-- The JSON-Lines fallback loop of `_download_report_files` (source
lines 109-115): blank lines are skipped, each remaining line is parsed
independently, a line that fails to parse is dropped with one warning.
Returns the parsed records in line order and the warning count. -/
def parseLines (parse : List Char → Option JVal) : List (List Char) → List JVal × Nat
  | [] => ([], 0)
  | line :: rest =>
    let t := parseLines parse rest
    if (pyStrip line).isEmpty then t
    else
      match parse line with
      | some v => (v :: t.1, t.2)
      | none => (t.1, t.2 + 1)

/-- Handling of one downloaded body (source lines 100-115): try the whole
text as one JSON document (a list extends the record list, any other
value is appended as one record); on parse failure fall back to
newline-delimited parsing of the stripped text.  `parse` is the
`json.loads` oracle. -/
def processContent (parse : List Char → Option JVal) (content : List Char) :
    List JVal × Nat :=
  match parse content with
  | some (.jarr l) => (l, 0)
  | some v => ([v], 0)
  | none => parseLines parse (splitNl (pyStrip content))

/-- The non-blank lines the fallback parser actually attempts. -/
def nonblankLines (content : List Char) : List (List Char) :=
  (splitNl (pyStrip content)).filter (fun l => !(pyStrip l).isEmpty)

/-- The `_download_report_files` loop (source lines 93-118): each link is
fetched through the `http` oracle (`none` models a network or HTTP
error, which is caught and logged); a failed link contributes nothing and
the remaining links are still processed.  Returns the concatenated
records, the count of failed downloads, and the count of per-line parse
warnings. -/
def download_report_files (http : String → Option (List Char))
    (parse : List Char → Option JVal) : List String → List JVal × Nat × Nat
  | [] => ([], 0, 0)
  | link :: rest =>
    let t := download_report_files http parse rest
    match http link with
    | none => (t.1, t.2.1 + 1, t.2.2)
    | some content =>
      ((processContent parse content).1 ++ t.1, t.2.1,
        (processContent parse content).2 + t.2.2)

/-- Witness `json.loads` oracle: knows the documents `1` and `[1]`. -/
def parse0 : List Char → Option JVal := fun s =>
  if s = ['1'] then some (.jnum 1)
  else if s = ['[', '1', ']'] then some (.jarr [.jnum 1])
  else none

/-- Outcome of `save_csv`: the warn-and-return branch on falsy data, a
header plus rows written through `csv.DictWriter`, raw rows written
positionally through `csv.writer`, the silent fall-through when the data
field is a truthy non-list (no file content written), or an exception
escaping the write loop (`csv.DictWriter` raises `ValueError` on a row
with keys outside the header, and a non-dict row raises). -/
inductive CsvOut where
  | noData
  | headerRows (fieldnames : List String) (rows : List (List JVal))
  | rowsPositional (rows : List JVal)
  | nothingWritten
  | writeError

/-- One row through `csv.DictWriter._dict_to_list` with the default
`extrasaction="raise"` and `restval=None`: a key outside `fieldnames`
raises, otherwise the cells are the row's values re-aligned to
`fieldnames` order with missing keys filled by `None` (here `jnull`);
a non-dict row raises when its keys are taken. -/
def dictToRow (fieldnames : List String) (v : JVal) : Option (List JVal) :=
  match v with
  | .jobj o =>
    if o.any (fun kv => !(fieldnames.contains kv.1)) then none
    else some (fieldnames.map (fun k => (o.lookup k).getD .jnull))
  | _ => none

/-- The `writer.writerows(report_data)` loop: converts every row, any
failing row aborts the write with an exception. -/
def mapRows (fieldnames : List String) : List JVal → Option (List (List JVal))
  | [] => some []
  | v :: vs =>
    match dictToRow fieldnames v, mapRows fieldnames vs with
    | some row, some rows => some (row :: rows)
    | _, _ => none

/-- The `save_csv` method (source lines 337-359): `data.get("data", [data])`,
warn-and-return on falsy data, `DictWriter` keyed on the first record's
keys when the first element is a dict, plain positional `csv.writer`
otherwise, and nothing written when the data field is a truthy
non-list. -/
def save_csv (payload : JObj) : CsvOut :=
  let report_data := (payload.lookup "data").getD (.jarr [.jobj payload])
  if truthy report_data = false then .noData
  else
    match report_data with
    | .jarr (r :: rs) =>
      match r with
      | .jobj o =>
        match mapRows (o.map (fun kv => kv.1)) (r :: rs) with
        | some rows => .headerRows (o.map (fun kv => kv.1)) rows
        | none => .writeError
      | _ => .rowsPositional (r :: rs)
    | _ => .nothingWritten

/-- Modelled from the spec: the positional, non-re-aligned row writing
that claim C4 asserts for dict records ("records with differing keys than
the header are written positionally, not re-aligned"): each record's own
values in its own key order become the row. -/
def save_csv_claimed (payload : JObj) : CsvOut :=
  let report_data := (payload.lookup "data").getD (.jarr [.jobj payload])
  if truthy report_data = false then .noData
  else
    match report_data with
    | .jarr (r :: rs) =>
      match r with
      | .jobj o =>
        .headerRows (o.map (fun kv => kv.1))
          ((r :: rs).map (fun v =>
            match v with
            | .jobj f => f.map (fun kv => kv.2)
            | w => [w]))
      | _ => .rowsPositional (r :: rs)
    | _ => .nothingWritten

/-- The fields of a JSON object, empty for any other value. -/
def objFieldsOf : JVal → JObj
  | .jobj o => o
  | _ => []

/-- Whether `csv.DictWriter` accepts a row for the given header: a dict
all of whose keys appear among the fieldnames. -/
def rowOkFor (fieldnames : List String) : JVal → Bool
  | .jobj f => f.all (fun kv => fieldnames.contains kv.1)
  | _ => false

/-- Counterexample payload for C4: the second record has the same keys as
the header but in the opposite order. -/
def p4 : JObj :=
  [("data", .jarr [.jobj [("a", .jnum 1), ("b", .jnum 2)],
                   .jobj [("b", .jnum 9), ("a", .jnum 8)]])]

/-- Witness payload for the amended C4: the second record lacks key `a`. -/
def p4w : JObj :=
  [("data", .jarr [.jobj [("a", .jnum 1), ("b", .jnum 2)],
                   .jobj [("b", .jnum 9)]])]

/-- Witness payload for the error part of the amended C4: the second
record has a key outside the header. -/
def p4e : JObj :=
  [("data", .jarr [.jobj [("a", .jnum 1)], .jobj [("z", .jnum 0)]])]

/-- The usage percentage of source line 477:
`min(100, (total_user_requests / included_limit) * 100)` with the fixed
`included_limit = 1000`, over exact rationals.  The concrete values the
claims exercise (500, 1500, 90) stay far from representation boundaries,
so Python's float arithmetic agrees with the exact value here. -/
def usage_pct (total : Int) : ℚ :=
  min 100 ((total : ℚ) / 1000 * 100)

/-- Python `int()` on a real number: truncation toward zero. -/
def pyInt (q : ℚ) : Int :=
  if 0 ≤ q then ⌊q⌋ else -⌊-q⌋

/-- The bar width of source line 478: `int(usage_pct / 5)`. -/
def bar_width (total : Int) : Int :=
  pyInt (usage_pct total / 5)

/-- The 20-character progress bar of source line 479:
`"█" * bar_width + "░" * (20 - bar_width)` (Python string repetition
clamps non-positive counts to the empty string). -/
def progress_bar (total : Int) : List Char :=
  List.replicate (bar_width total).toNat '█' ++
    List.replicate ((20 - bar_width total).toNat) '░'

/-- Thousands grouping over a reversed digit list: after every third
digit a comma is inserted when more digits follow. -/
def groupRev : List Char → Nat → List Char
  | [], _ => []
  | c :: cs, n =>
    if n = 2 then c :: (if cs.isEmpty then [] else ',' :: groupRev cs 0)
    else c :: groupRev cs (n + 1)

/-- Python `f"{n:,}"`: decimal digits with thousands separators. -/
def pyCommaFmt (n : Int) : List Char :=
  let grouped := (groupRev (Nat.toDigits 10 n.natAbs).reverse 0).reverse
  if n < 0 then '-' :: grouped else grouped

/-- The included-requests cell of source line 474:
`f"{total_user_requests:,}/1,000"`, uncapped. -/
def included_str (total : Int) : List Char :=
  pyCommaFmt total ++ "/1,000".data

/-- Index of the last occurrence of a character in a character list. -/
def lastIdxOf (c : Char) : List Char → Option Nat
  | [] => none
  | x :: xs =>
    match lastIdxOf c xs with
    | some i => some (i + 1)
    | none => if x = c then some 0 else none

/-- The final-component part of `pathlib.Path.with_suffix`: the suffix is
everything from the last dot, except that a leading dot (a hidden file)
is not a suffix; `suffix` carries its own dot. -/
def withSuffixName (name suffix : List Char) : List Char :=
  match lastIdxOf '.' name with
  | none => name ++ suffix
  | some i => if i = 0 then name ++ suffix else name.take i ++ suffix

/-- `pathlib.Path.with_suffix` on a path given as a character list: the
replacement applies to the component after the last slash. -/
def withSuffix (p suffix : List Char) : List Char :=
  match lastIdxOf '/' p with
  | none => withSuffixName p suffix
  | some i => p.take (i + 1) ++ withSuffixName (p.drop (i + 1)) suffix

/-- The stem of the generated report filename (`generate_filename`,
source lines 318-330), with the timestamp `ts` standing for
`datetime.now().strftime("%Y%m%d_%H%M%S")`. -/
def file_stem (ty ts : String) : List Char :=
  "copilot_".data ++ ty.data ++ "_".data ++ ts.data

/-- The `generate_filename` method: `copilot_{ty}_{ts}.{ext}` where the
extension is the configured output format except that `excel` maps to
`xlsx`.  `fmt` is the already-lowercased `output_format` field. -/
def generate_filename (fmt ty ts : String) : List Char :=
  file_stem ty ts ++ '.' :: (if fmt = "excel" then "xlsx".data else fmt.data)

/-- A file produced by the report generator, tagged by serialisation. -/
inductive WriteOp where
  | wjson (path : List Char) (payload : JObj)
  | wcsv (path : List Char) (out : CsvOut)
  | wexcel (path : List Char) (payload : JObj)

/-- The `save_json` method: one JSON file at the given path. -/
def save_json (payload : JObj) (filepath : List Char) : List WriteOp :=
  [.wjson filepath payload]

/-- The `save_excel` method (source lines 361-377): `pandas` says whether
the spreadsheet dependency imports; when it does not, the `ImportError`
is caught, a warning is printed and the payload is saved as JSON at the
same path with the suffix replaced by `.json`.  Returns the writes and
the warning count. -/
def save_excel (pandas : Bool) (payload : JObj) (filepath : List Char) :
    List WriteOp × Nat :=
  if pandas then ([.wexcel filepath payload], 0)
  else (save_json payload (withSuffix filepath ".json".data), 1)

/-- The `save_report` method (source lines 379-404): build the filename,
dispatch on the configured format (an unrecognised format warns and falls
back to JSON at the `.json` path), then print and return `filepath` -
always the originally generated path, whatever was written.  Returns
(writes, warning count, returned path). -/
def save_report (fmt : String) (pandas : Bool) (outDir : List Char)
    (ty ts : String) (payload : JObj) : List WriteOp × Nat × List Char :=
  let filepath := outDir ++ '/' :: generate_filename fmt ty ts
  if fmt = "json" then (save_json payload filepath, 0, filepath)
  else if fmt = "csv" then ([.wcsv filepath (save_csv payload)], 0, filepath)
  else if fmt = "excel" then
    ((save_excel pandas payload filepath).1, (save_excel pandas payload filepath).2,
      filepath)
  else (save_json payload (withSuffix filepath ".json".data), 1, filepath)

/-- The derived status a seat row renders in `print_seats_detail`
(source lines 544-550); the pending-cancellation branch keeps the raw
date value it displays truncated to 10 characters. -/
inductive SeatStatus where
  | cancelPending (pending : JVal)
  | active
  | inactive

/-- The status selection of `print_seats_detail` (source lines 544-550):
a truthy `pending_cancellation_date` wins, else a truthy
`last_activity_at` means active, else inactive. -/
def seat_status (seat : JObj) : SeatStatus :=
  let pending := jget seat "pending_cancellation_date" .jnull
  if truthy pending then .cancelPending pending
  else if truthy (jget seat "last_activity_at" .jnull) then .active
  else .inactive

/-- Witness seat with both a pending cancellation and recent activity. -/
def wseat1 : JObj :=
  [("pending_cancellation_date", .jstr "2026-03-01"),
   ("last_activity_at", .jstr "2026-02-01T10:00:00Z")]

/-- Witness seat with activity only. -/
def wseat2 : JObj := [("last_activity_at", .jstr "2026-02-01T10:00:00Z")]

/-- Witness seat with neither field. -/
def wseat3 : JObj := [("created_at", .jstr "2025-01-01T00:00:00Z")]

/-- The pagination loop of `get_copilot_billing_seats` (source lines
215-251), fuel-indexed to stay total: the outer `none` means the loop did
not finish within `fuel` requests, the inner `none` is the function's own
`return None` on a caught request error (which also covers a `seats`
field that is not a list, since `len` then raises inside the same `try`).
The `api` oracle stands for one authenticated GET with the given `page`
and `per_page` values; `total` holds `total_seats`, fixed on page 1. -/
def seatsLoop (api : Nat → Nat → Option JObj) :
    Nat → Nat → JVal → List JVal → Option (Option (JVal × List JVal))
  | 0, _, _, _ => none
  | fuel + 1, page, total, acc =>
    match api page 50 with
    | none => some none
    | some data =>
      let total2 := if page = 1 then jget data "total_seats" (.jnum 0) else total
      match jget data "seats" (.jarr []) with
      | .jarr seats =>
        if seats.length < 50 then some (some (total2, acc ++ seats))
        else seatsLoop api fuel (page + 1) total2 (acc ++ seats)
      | _ => some none

/-- `get_copilot_billing_seats`: page numbering starts at 1, `per_page`
is fixed at 50, `total_seats` starts at 0, the seat accumulator empty. -/
def get_copilot_billing_seats (api : Nat → Nat → Option JObj) (fuel : Nat) :
    Option (Option (JVal × List JVal)) :=
  seatsLoop api fuel 1 (.jnum 0) []

/-- Witness seat pages: page 1 full with 50 seats and total 101, page 2
short with 1 seat and a differing total 102 that must be ignored. -/
def wpageSeats (i : Nat) : List JVal :=
  if i = 1 then List.replicate 50 .jnull else [.jnull]

/-- Witness totals for the two pages. -/
def wpageTotal (i : Nat) : JVal := .jnum (100 + i)

/-- Witness API oracle returning the two pages above for any page
number (only pages 1 and 2 are ever requested). -/
def wapi : Nat → Nat → Option JObj := fun page _ =>
  some [("total_seats", wpageTotal page), ("seats", .jarr (wpageSeats page))]

theorem updStats_eq (s : UserStats) (r : JObj) :
    updStats s r = (numsOf r).map (bumpStats s) := by
  unfold updStats numsOf pyAddInt bumpStats
  rcases toNum (jget r "user_initiated_interaction_count" (.jnum 0)) with _ | a <;>
    rcases toNum (jget r "code_generation_activity_count" (.jnum 0)) with _ | b <;>
      rcases toNum (jget r "code_acceptance_activity_count" (.jnum 0)) with _ | c <;>
        simp

theorem stepRecord_eq (m : AggState) (r : JObj) :
    stepRecord m r =
      match loginKeyOf r with
      | none => none
      | some key => (numsOf r).map (fun t => aggApplyAt m key t) := by
  unfold stepRecord loginKeyOf
  rcases normKey (jget r "user_login" (.jstr "")) with _ | key
  · rfl
  · simp only [updStats_eq, Option.map_map]
    rcases numsOf r with _ | t <;> rfl

theorem bumpStats_comm (s : UserStats) (t1 t2 : Int × Int × Int) :
    bumpStats (bumpStats s t1) t2 = bumpStats (bumpStats s t2) t1 := by
  cases s
  simp only [bumpStats]
  ext <;> simp <;> omega

theorem aggApplyAt_comm (m : AggState) (k1 k2 : PyKey) (t1 t2 : Int × Int × Int) :
    aggApplyAt (aggApplyAt m k1 t1) k2 t2 = aggApplyAt (aggApplyAt m k2 t2) k1 t1 := by
  funext k
  by_cases h12 : k1 = k2
  · subst h12
    by_cases hk : k = k1 <;> simp [aggApplyAt, hk, bumpStats_comm]
  · by_cases hk1 : k = k1 <;> by_cases hk2 : k = k2 <;>
      simp_all [aggApplyAt]

theorem stepRecord_none (r : JObj) (m : AggState)
    (h : loginKeyOf r = none ∨ numsOf r = none) : stepRecord m r = none := by
  rw [stepRecord_eq]
  rcases h with h | h
  · rw [h]
  · rcases hl : loginKeyOf r with _ | key
    · rfl
    · rw [h]
      rfl

theorem stepRecord_some (r : JObj) (m : AggState) (key : PyKey) (t : Int × Int × Int)
    (hk : loginKeyOf r = some key) (hn : numsOf r = some t) :
    stepRecord m r = some (aggApplyAt m key t) := by
  rw [stepRecord_eq, hk, hn]
  rfl

theorem step_swap (m : AggState) (r1 r2 : JObj) :
    (match stepRecord m r1 with
     | none => none
     | some m2 => stepRecord m2 r2) =
    (match stepRecord m r2 with
     | none => none
     | some m2 => stepRecord m2 r1) := by
  by_cases h1 : loginKeyOf r1 = none ∨ numsOf r1 = none
  · rw [stepRecord_none r1 m h1]
    cases hs : stepRecord m r2 with
    | none => rfl
    | some m2 =>
      dsimp only
      rw [stepRecord_none r1 m2 h1]
  · by_cases h2 : loginKeyOf r2 = none ∨ numsOf r2 = none
    · rw [stepRecord_none r2 m h2]
      cases hs : stepRecord m r1 with
      | none => rfl
      | some m2 =>
        dsimp only
        rw [stepRecord_none r2 m2 h2]
    · push_neg at h1 h2
      obtain ⟨k1, hk1⟩ := Option.ne_none_iff_exists'.mp h1.1
      obtain ⟨t1, hn1⟩ := Option.ne_none_iff_exists'.mp h1.2
      obtain ⟨k2, hk2⟩ := Option.ne_none_iff_exists'.mp h2.1
      obtain ⟨t2, hn2⟩ := Option.ne_none_iff_exists'.mp h2.2
      rw [stepRecord_some r1 m k1 t1 hk1 hn1, stepRecord_some r2 m k2 t2 hk2 hn2]
      dsimp only
      rw [stepRecord_some r2 _ k2 t2 hk2 hn2, stepRecord_some r1 _ k1 t1 hk1 hn1,
        aggApplyAt_comm]

theorem fold_cons (m : AggState) (r : JObj) (rest : List JObj) :
    user_stats_fold m (r :: rest) =
      match stepRecord m r with
      | none => none
      | some m2 => user_stats_fold m2 rest := rfl

theorem fold_cons2 (m : AggState) (a b : JObj) (rest : List JObj) :
    user_stats_fold m (a :: b :: rest) =
      match (match stepRecord m a with
             | none => none
             | some m2 => stepRecord m2 b) with
      | none => none
      | some m3 => user_stats_fold m3 rest := by
  rw [fold_cons]
  cases hs : stepRecord m a with
  | none => rfl
  | some m2 => rfl

/-- C1: building `user_stats` from the record list yields the same mapping
of login to counter values for any permutation of the input records; the
output depends only on the multiset of records. -/
theorem user_stats_perm_invariant (l l2 : List JObj) (h : l.Perm l2) :
    user_stats_of l = user_stats_of l2 := by
  have main : ∀ m, user_stats_fold m l = user_stats_fold m l2 := by
    induction h with
    | nil => intro m; rfl
    | cons x _ ih =>
      intro m
      rw [fold_cons, fold_cons]
      rcases stepRecord m x with _ | m2
      · rfl
      · exact ih m2
    | swap x y l =>
      intro m
      rw [fold_cons2, fold_cons2, step_swap]
    | trans _ _ ih1 ih2 =>
      intro m
      exact (ih1 m).trans (ih2 m)
  exact main emptyStats

/-- Witness for C1: swapping two concrete records leaves the aggregated
mapping unchanged. -/
theorem user_stats_perm_invariant_witness :
    user_stats_of [wrec2, wrec1] = user_stats_of [wrec1, wrec2] :=
  user_stats_perm_invariant [wrec2, wrec1] [wrec1, wrec2]
    (List.Perm.swap wrec1 wrec2 [])

/-- C2, counterexample: on a record whose interaction count is present
but non-numeric the aggregation does not default the field to zero, it
raises `TypeError` (the fold returns `none`), so the claimed sum equation
has no aggregate to hold of. -/
theorem agg_nonnumeric_cex : ¬ C2Claim [badRecord] := by
  rintro ⟨m, hm, -⟩
  have h : user_stats_of [badRecord] = none := rfl
  rw [h] at hm
  exact Option.noConfusion hm

theorem sumField_cons (r : JObj) (rest : List JObj) (login : PyKey) (f : String) :
    sumField (r :: rest) login f =
      (if loginKeyOf r = some login then (toNum (jget r f (.jnum 0))).getD 0 else 0)
        + sumField rest login f := by
  by_cases h : loginKeyOf r = some login <;>
    simp [sumField, List.filter_cons, h]

theorem fold_ok (records : List JObj) :
    ∀ m0 : AggState, (∀ r ∈ records, RecordOk r = true) →
      ∃ m, user_stats_fold m0 records = some m ∧ ∀ login : PyKey,
        (statsValue m login).interactions
            = (statsValue m0 login).interactions
              + sumField records login "user_initiated_interaction_count" ∧
        (statsValue m login).code_gen
            = (statsValue m0 login).code_gen
              + sumField records login "code_generation_activity_count" ∧
        (statsValue m login).code_accept
            = (statsValue m0 login).code_accept
              + sumField records login "code_acceptance_activity_count" := by
  induction records with
  | nil =>
    intro m0 _
    refine ⟨m0, rfl, fun login => ?_⟩
    simp [sumField]
  | cons r rest ih =>
    intro m0 hok
    have hr : RecordOk r = true := hok r (List.mem_cons_self r rest)
    simp only [RecordOk, Bool.and_eq_true, Option.isSome_iff_exists] at hr
    obtain ⟨⟨⟨⟨key, hkey⟩, a, ha⟩, b, hb⟩, c, hc⟩ := hr
    have hnums : numsOf r = some (a, b, c) := by
      unfold numsOf
      rw [ha, hb, hc]
    have hstep : stepRecord m0 r = some (aggApplyAt m0 key (a, b, c)) := by
      rw [stepRecord_eq]
      unfold loginKeyOf at hkey
      rw [show loginKeyOf r = some key from hkey, hnums]
      rfl
    obtain ⟨m, hm, hsum⟩ :=
      ih (aggApplyAt m0 key (a, b, c)) (fun r2 h2 => hok r2 (List.mem_cons_of_mem r h2))
    refine ⟨m, ?_, fun login => ?_⟩
    · rw [fold_cons, hstep]
      exact hm
    · obtain ⟨h1, h2, h3⟩ := hsum login
      rw [h1, h2, h3, sumField_cons, sumField_cons, sumField_cons, hkey]
      by_cases hl : key = login
      · subst hl
        simp [statsValue, aggApplyAt, bumpStats, ha, hb, hc]
        refine ⟨by omega, by omega, by omega⟩
      · have hl2 : (some key = some login) = False := by
          simp [hl]
        simp only [statsValue, aggApplyAt, hl2, if_false]
        have hne : (login = key) = False := by
          simp [Ne.symm hl]
        simp only [hne, if_false]
        refine ⟨by omega, by omega, by omega⟩

/-- C2, amended: for records whose login key is hashable and whose three
counter fields are numeric whenever present, every login's aggregated
counters equal the arithmetic sums of the corresponding field over that
login's records, missing fields contributing zero and absent `user_login`
aggregating under the empty-string key. -/
theorem agg_counters_eq_sums (records : List JObj)
    (h : ∀ r ∈ records, RecordOk r = true) : C2Claim records := by
  obtain ⟨m, hm, hsum⟩ := fold_ok records emptyStats h
  refine ⟨m, hm, fun login => ?_⟩
  obtain ⟨h1, h2, h3⟩ := hsum login
  rw [h1, h2, h3]
  simp [statsValue, emptyStats, initStats]

/-- Witness for the amended C2 on two concrete alice/bob records. -/
theorem agg_counters_eq_sums_witness : C2Claim [wrec1, wrec3] :=
  agg_counters_eq_sums [wrec1, wrec3] (by decide)

theorem parseLines_eq (parse : List Char → Option JVal) (lines : List (List Char)) :
    parseLines parse lines =
      ((lines.filter (fun l => !(pyStrip l).isEmpty)).filterMap parse,
       (lines.filter (fun l => !(pyStrip l).isEmpty)).countP
         (fun l => (parse l).isNone)) := by
  induction lines with
  | nil => rfl
  | cons line rest ih =>
    by_cases hb : (pyStrip line).isEmpty
    · simp [parseLines, ih, List.filter_cons, hb]
    · cases hp : parse line with
      | none =>
        simp [parseLines, ih, List.filter_cons, hb, hp, List.countP_cons]
      | some v =>
        simp [parseLines, ih, List.filter_cons, hb, hp, List.countP_cons]

theorem filterMap_length_of_isSome (f : List Char → Option JVal) (l : List (List Char))
    (h : ∀ x ∈ l, (f x).isSome = true) : (l.filterMap f).length = l.length := by
  induction l with
  | nil => rfl
  | cons x xs ih =>
    obtain ⟨v, hv⟩ := Option.isSome_iff_exists.mp (h x (List.mem_cons_self x xs))
    simp [List.filterMap_cons, hv, ih (fun y hy => h y (List.mem_cons_of_mem x hy))]

/-- C3: a body that parses as one JSON array of records yields exactly
those records in order with no warning; a body whose whole-text parse
fails and whose non-blank lines all parse except exactly one yields the
remaining records in line order with exactly one warning, without
aborting. -/
theorem bulk_fetch_parse_cases (parse : List Char → Option JVal) :
    (∀ content l, parse content = some (.jarr l) →
        processContent parse content = (l, 0)) ∧
    (∀ content g1 g2 bad,
        parse content = none →
        nonblankLines content = g1 ++ bad :: g2 →
        parse bad = none →
        (∀ line ∈ g1 ++ g2, (parse line).isSome = true) →
        processContent parse content = ((g1 ++ g2).filterMap parse, 1) ∧
          ((g1 ++ g2).filterMap parse).length = g1.length + g2.length) := by
  constructor
  · intro content l h
    simp [processContent, h]
  · intro content g1 g2 bad hnone hsplit hbad hgood
    have hcount1 : g1.countP (fun l => (parse l).isNone) = 0 := by
      refine List.countP_eq_zero.mpr (fun l hl => ?_)
      have := hgood l (List.mem_append_left g2 hl)
      simp [Option.isNone_iff_eq_none]
      exact Option.ne_none_iff_isSome.mpr this
    have hcount2 : g2.countP (fun l => (parse l).isNone) = 0 := by
      refine List.countP_eq_zero.mpr (fun l hl => ?_)
      have := hgood l (List.mem_append_right g1 hl)
      simp [Option.isNone_iff_eq_none]
      exact Option.ne_none_iff_isSome.mpr this
    have hmain : processContent parse content = ((g1 ++ g2).filterMap parse, 1) := by
      have : processContent parse content
          = parseLines parse (splitNl (pyStrip content)) := by
        simp [processContent, hnone]
      rw [this, parseLines_eq]
      have hnb : (splitNl (pyStrip content)).filter (fun l => !(pyStrip l).isEmpty)
          = g1 ++ bad :: g2 := hsplit
      rw [hnb]
      simp only [Prod.mk.injEq]
      refine ⟨?_, ?_⟩
      · simp [List.filterMap_append, List.filterMap_cons, hbad]
      · simp [List.countP_append, List.countP_cons, hbad, hcount1, hcount2,
          Option.isNone_iff_eq_none]
    refine ⟨hmain, ?_⟩
    rw [List.filterMap_append, List.length_append,
      filterMap_length_of_isSome parse g1
        (fun x hx => hgood x (List.mem_append_left g2 hx)),
      filterMap_length_of_isSome parse g2
        (fun x hx => hgood x (List.mem_append_right g1 hx))]

/-- Witness for C3: a whole-array body and a two-line body with one
malformed line, against the concrete `parse0` oracle. -/
theorem bulk_fetch_parse_cases_witness :
    processContent parse0 ['[', '1', ']'] = ([.jnum 1], 0) ∧
    processContent parse0 ['1', '\n', 'x'] = ([.jnum 1], 1) := by
  constructor
  · exact (bulk_fetch_parse_cases parse0).1 ['[', '1', ']'] [.jnum 1] rfl
  · exact ((bulk_fetch_parse_cases parse0).2 ['1', '\n', 'x'] [['1']] [] ['x']
      rfl rfl rfl (by decide)).1

/-- C7: on any link list the fetcher returns the concatenation, in input
link order, of each successfully downloaded file's records in intra-file
order, with no deduplication; every failed download is counted (caught
and logged) while all remaining links are still processed, and the
fetcher itself is a total function (it never raises). -/
theorem download_files_concat (http : String → Option (List Char))
    (parse : List Char → Option JVal) (links : List String) :
    download_report_files http parse links =
      ((links.map (fun l => ((http l).map
          (fun c => (processContent parse c).1)).getD [])).flatten,
       links.countP (fun l => (http l).isNone),
       (links.map (fun l => ((http l).map
          (fun c => (processContent parse c).2)).getD 0)).sum) := by
  induction links with
  | nil => rfl
  | cons link rest ih =>
    cases hl : http link with
    | none =>
      simp [download_report_files, hl, ih, List.countP_cons]
    | some content =>
      simp [download_report_files, hl, ih, List.countP_cons]

theorem dictToRow_of_ok (fns : List String) (v : JVal) (h : rowOkFor fns v = true) :
    dictToRow fns v
      = some (fns.map (fun k => ((objFieldsOf v).lookup k).getD .jnull)) := by
  cases v with
  | jobj f =>
    have hall : ∀ kv ∈ f, kv.1 ∈ fns := by
      simpa [rowOkFor, List.contains] using h
    simp [dictToRow, objFieldsOf, List.contains]
    intro a b hab
    exact hall (a, b) hab
  | jnull => simp [rowOkFor] at h
  | jbool b => simp [rowOkFor] at h
  | jnum n => simp [rowOkFor] at h
  | jstr s => simp [rowOkFor] at h
  | jarr l => simp [rowOkFor] at h

theorem dictToRow_of_bad (fns : List String) (v : JVal) (h : rowOkFor fns v = false) :
    dictToRow fns v = none := by
  cases v with
  | jobj f =>
    have h2 : (f.all fun kv => fns.contains kv.1) = false := by
      simpa [rowOkFor] using h
    rw [List.all_eq_false] at h2
    obtain ⟨kv, hkv, hc⟩ := h2
    have hmem : kv.1 ∉ fns := by
      simpa [List.contains] using hc
    simp [dictToRow, List.contains]
    exact ⟨kv.1, ⟨kv.2, hkv⟩, hmem⟩
  | jnull => rfl
  | jbool b => rfl
  | jnum n => rfl
  | jstr s => rfl
  | jarr l => rfl

theorem mapRows_all_some (fns : List String) (l : List JVal)
    (h : ∀ v ∈ l, rowOkFor fns v = true) :
    mapRows fns l
      = some (l.map (fun v => fns.map (fun k => ((objFieldsOf v).lookup k).getD .jnull))) := by
  induction l with
  | nil => rfl
  | cons v vs ih =>
    rw [show mapRows fns (v :: vs)
        = match dictToRow fns v, mapRows fns vs with
          | some row, some rows => some (row :: rows)
          | _, _ => none from rfl,
      dictToRow_of_ok fns v (h v (List.mem_cons_self v vs)),
      ih (fun w hw => h w (List.mem_cons_of_mem v hw))]
    rfl

theorem mapRows_of_bad (fns : List String) (l : List JVal)
    (h : ∃ v ∈ l, rowOkFor fns v = false) : mapRows fns l = none := by
  induction l with
  | nil =>
    obtain ⟨v, hv, -⟩ := h
    exact absurd hv (List.not_mem_nil v)
  | cons v vs ih =>
    obtain ⟨w, hw, hbad⟩ := h
    rcases List.mem_cons.mp hw with rfl | hw2
    · rw [show mapRows fns (w :: vs)
          = match dictToRow fns w, mapRows fns vs with
            | some row, some rows => some (row :: rows)
            | _, _ => none from rfl,
        dictToRow_of_bad fns w hbad]
    · rw [show mapRows fns (v :: vs)
          = match dictToRow fns v, mapRows fns vs with
            | some row, some rows => some (row :: rows)
            | _, _ => none from rfl,
        ih ⟨w, hw2, hbad⟩]
      cases dictToRow fns v <;> rfl

/-- C4, counterexample: on a payload whose second record has the header's
keys in the opposite order, `csv.DictWriter` re-aligns the row to the
header (values `8, 9` in header order `a, b`), while the claim's
positional writing predicts `9, 8`. -/
theorem save_csv_positional_cex :
    save_csv p4 = .headerRows ["a", "b"] [[.jnum 1, .jnum 2], [.jnum 8, .jnum 9]] ∧
    save_csv_claimed p4
      = .headerRows ["a", "b"] [[.jnum 1, .jnum 2], [.jnum 9, .jnum 8]] ∧
    save_csv p4 ≠ save_csv_claimed p4 := by
  refine ⟨rfl, rfl, ?_⟩
  intro h
  rw [show save_csv p4
      = CsvOut.headerRows ["a", "b"] [[.jnum 1, .jnum 2], [.jnum 8, .jnum 9]] from rfl,
    show save_csv_claimed p4
      = CsvOut.headerRows ["a", "b"] [[.jnum 1, .jnum 2], [.jnum 9, .jnum 8]] from rfl] at h
  simp at h

/-- C4, amended: when the data field is a non-empty sequence of mappings,
the first record's keys become the column header and every record is
written as one row whose cells are that record's values re-aligned to the
header columns, a key missing from a record yielding a `None` cell; a
record with a key outside the header makes the CSV write raise instead of
being written positionally. -/
theorem save_csv_header_aligned (payload : JObj) (o : JObj) (rs : List JVal)
    (hd : payload.lookup "data" = some (.jarr (.jobj o :: rs))) :
    (rs.all (rowOkFor (o.map (fun kv => kv.1))) = true →
      save_csv payload = .headerRows (o.map (fun kv => kv.1))
        ((.jobj o :: rs).map (fun v => (o.map (fun kv => kv.1)).map
          (fun k => ((objFieldsOf v).lookup k).getD .jnull)))) ∧
    (rs.any (fun v => !(rowOkFor (o.map (fun kv => kv.1)) v)) = true →
      save_csv payload = .writeError) := by
  have hfirst : rowOkFor (o.map (fun kv => kv.1)) (.jobj o) = true := by
    rw [show rowOkFor (o.map (fun kv => kv.1)) (.jobj o)
        = o.all (fun kv => (o.map (fun kv2 => kv2.1)).contains kv.1) from rfl,
      List.all_eq_true]
    intro kv hkv
    simp only [List.contains, List.elem_eq_mem, decide_eq_true_eq]
    exact List.mem_map_of_mem (fun kv2 => kv2.1) hkv
  constructor
  · intro hall
    have hok : ∀ v ∈ (JVal.jobj o :: rs), rowOkFor (o.map (fun kv => kv.1)) v = true := by
      intro v hv
      rcases List.mem_cons.mp hv with rfl | hv2
      · exact hfirst
      · exact List.all_eq_true.mp hall v hv2
    have hm := mapRows_all_some (o.map (fun kv => kv.1)) (.jobj o :: rs) hok
    simp [save_csv, hd, truthy, hm]
  · intro hbad
    obtain ⟨w, hw, hnb⟩ := List.any_eq_true.mp hbad
    have hm := mapRows_of_bad (o.map (fun kv => kv.1)) (.jobj o :: rs)
      ⟨w, List.mem_cons_of_mem _ hw, by simpa using hnb⟩
    simp [save_csv, hd, truthy, hm]

/-- Witness for the amended C4: a record missing a header key is aligned
with a null cell, and a record with a foreign key makes the write fail. -/
theorem save_csv_header_aligned_witness :
    save_csv p4w = .headerRows ["a", "b"] [[.jnum 1, .jnum 2], [.jnull, .jnum 9]] ∧
    save_csv p4e = .writeError := by
  constructor
  · exact (save_csv_header_aligned p4w [("a", .jnum 1), ("b", .jnum 2)]
      [.jobj [("b", .jnum 9)]] rfl).1 (by decide)
  · exact (save_csv_header_aligned p4e [("a", .jnum 1)]
      [.jobj [("z", .jnum 0)]] rfl).2 (by decide)

theorem usage_pct_90 : usage_pct 90 = 9 := by
  rw [usage_pct, show (((90 : Int) : ℚ)) / 1000 * 100 = 9 by norm_num, min_def]
  norm_num

theorem usage_pct_500 : usage_pct 500 = 50 := by
  rw [usage_pct, show (((500 : Int) : ℚ)) / 1000 * 100 = 50 by norm_num, min_def]
  norm_num

theorem usage_pct_1500 : usage_pct 1500 = 100 := by
  rw [usage_pct, show (((1500 : Int) : ℚ)) / 1000 * 100 = 150 by norm_num, min_def]
  norm_num

/-- C5, counterexample: at usage 90 the percentage is 9.0 and the code's
`int(usage_pct / 5)` truncates 1.8 to 1 filled segment, while the claim's
`round(usagePercent / 5)` predicts 2. -/
theorem bar_width_not_round_cex :
    bar_width 90 = 1 ∧ round (usage_pct 90 / 5) = 2 ∧
      bar_width 90 ≠ round (usage_pct 90 / 5) := by
  have h1 : bar_width 90 = 1 := by
    rw [bar_width, usage_pct_90, pyInt, if_pos (by norm_num : (0:ℚ) ≤ 9 / 5)]
    rw [Int.floor_eq_iff]
    norm_num
  have h2 : round ((usage_pct 90) / 5) = 2 := by
    rw [usage_pct_90, round_eq, show (9:ℚ) / 5 + 1 / 2 = 23 / 10 by norm_num]
    rw [Int.floor_eq_iff]
    norm_num
  refine ⟨h1, h2, ?_⟩
  rw [h1, h2]
  decide

/-- C5, amended: the rendered progress bar has
`filled = int(usagePercent / 5)` (truncation, which on the nonnegative
capped percentage is the floor) of 20 segments, the percentage is capped
at 100; usage 500 gives 10 of 20 segments at 50.0%, usage 1500 gives all
20 segments at 100.0% while the raw count is shown uncapped as
"1,500/1,000". -/
theorem usage_bar_truncation :
    (usage_pct 500 = 50 ∧ bar_width 500 = 10 ∧
      progress_bar 500 = "██████████░░░░░░░░░░".data) ∧
    (usage_pct 1500 = 100 ∧ bar_width 1500 = 20 ∧
      progress_bar 1500 = "████████████████████".data ∧
      included_str 1500 = "1,500/1,000".data) ∧
    (∀ total : Int, 0 ≤ total →
      bar_width total = ⌊usage_pct total / 5⌋ ∧ usage_pct total ≤ 100) := by
  have hb500 : bar_width 500 = 10 := by
    rw [bar_width, usage_pct_500, pyInt, if_pos (by norm_num : (0:ℚ) ≤ 50 / 5)]
    rw [Int.floor_eq_iff]
    norm_num
  have hb1500 : bar_width 1500 = 20 := by
    rw [bar_width, usage_pct_1500, pyInt, if_pos (by norm_num : (0:ℚ) ≤ 100 / 5)]
    rw [Int.floor_eq_iff]
    norm_num
  refine ⟨⟨usage_pct_500, hb500, ?_⟩, ⟨usage_pct_1500, hb1500, ?_, by decide⟩, ?_⟩
  · rw [progress_bar, hb500]
    decide
  · rw [progress_bar, hb1500]
    decide
  · intro total ht
    have hq : (0 : ℚ) ≤ (total : ℚ) / 1000 * 100 := by
      have : (0 : ℚ) ≤ (total : ℚ) := by exact_mod_cast ht
      positivity
    have hnn : (0 : ℚ) ≤ usage_pct total := le_min (by norm_num) hq
    refine ⟨?_, min_le_left 100 _⟩
    rw [bar_width, pyInt, if_pos (by positivity)]

/-- Witness for the amended C5 at usage 300. -/
theorem usage_bar_truncation_witness :
    bar_width 300 = ⌊usage_pct 300 / 5⌋ ∧ usage_pct 300 ≤ 100 :=
  usage_bar_truncation.2.2 300 (by decide)

theorem lastIdxOf_eq_none (c : Char) (l : List Char) (h : c ∉ l) :
    lastIdxOf c l = none := by
  induction l with
  | nil => rfl
  | cons x xs ih =>
    have hx : ¬(x = c) := fun he => h (he ▸ List.mem_cons_self x xs)
    rw [show lastIdxOf c (x :: xs)
        = (match lastIdxOf c xs with
           | some i => some (i + 1)
           | none => if x = c then some 0 else none) from rfl,
      ih (fun hm => h (List.mem_cons_of_mem x hm))]
    simp [hx]

theorem lastIdxOf_append (c : Char) (a b : List Char) :
    lastIdxOf c (a ++ b) =
      match lastIdxOf c b with
      | some i => some (a.length + i)
      | none => lastIdxOf c a := by
  induction a with
  | nil => cases hb : lastIdxOf c b <;> simp [hb, lastIdxOf]
  | cons x xs ih =>
    cases hb : lastIdxOf c b with
    | none =>
      rw [hb] at ih
      rw [List.cons_append,
        show lastIdxOf c (x :: (xs ++ b))
          = (match lastIdxOf c (xs ++ b) with
             | some i => some (i + 1)
             | none => if x = c then some 0 else none) from rfl, ih]
      rfl
    | some i =>
      rw [hb] at ih
      rw [List.cons_append,
        show lastIdxOf c (x :: (xs ++ b))
          = (match lastIdxOf c (xs ++ b) with
             | some i => some (i + 1)
             | none => if x = c then some 0 else none) from rfl, ih]
      simp only [List.length_cons]
      simp
      omega

theorem withSuffix_spec (dir stem ext suf : List Char)
    (hstem_slash : '/' ∉ stem) (hstem_dot : '.' ∉ stem)
    (hext_slash : '/' ∉ ext) (hext_dot : '.' ∉ ext) (hne : stem ≠ []) :
    withSuffix (dir ++ '/' :: (stem ++ '.' :: ext)) suf
      = dir ++ '/' :: (stem ++ suf) := by
  have hname_slash : '/' ∉ stem ++ '.' :: ext := by
    simp only [List.mem_append, List.mem_cons]
    rintro (h | h | h)
    · exact hstem_slash h
    · exact absurd h (by decide)
    · exact hext_slash h
  have h1 : lastIdxOf '/' ('/' :: (stem ++ '.' :: ext)) = some 0 := by
    rw [show lastIdxOf '/' ('/' :: (stem ++ '.' :: ext))
        = (match lastIdxOf '/' (stem ++ '.' :: ext) with
           | some i => some (i + 1)
           | none => if '/' = '/' then some 0 else none) from rfl,
      lastIdxOf_eq_none '/' _ hname_slash]
    simp
  have h2 : lastIdxOf '/' (dir ++ '/' :: (stem ++ '.' :: ext)) = some dir.length := by
    rw [lastIdxOf_append, h1]
    simp
  have h3 : lastIdxOf '.' (stem ++ '.' :: ext) = some stem.length := by
    rw [lastIdxOf_append,
      show lastIdxOf '.' ('.' :: ext)
        = (match lastIdxOf '.' ext with
           | some i => some (i + 1)
           | none => if '.' = '.' then some 0 else none) from rfl,
      lastIdxOf_eq_none '.' ext hext_dot]
    simp
  have hlen : stem.length ≠ 0 := by
    cases stem with
    | nil => exact absurd rfl hne
    | cons c cs => simp
  have h4 : withSuffixName (stem ++ '.' :: ext) suf = stem ++ suf := by
    rw [withSuffixName, h3]
    dsimp only
    rw [if_neg hlen, List.take_left' rfl]
  have hsplit : dir ++ '/' :: (stem ++ '.' :: ext)
      = (dir ++ ['/']) ++ (stem ++ '.' :: ext) := by
    simp
  rw [withSuffix, h2]
  dsimp only
  rw [hsplit,
    List.take_left' (by simp : (dir ++ ['/']).length = dir.length + 1),
    List.drop_left' (by simp : (dir ++ ['/']).length = dir.length + 1), h4]
  simp

theorem file_stem_not_mem (c : Char) (ty ts : String) (hc1 : c ∉ "copilot_".data)
    (hc2 : c ∉ "_".data) (h1 : c ∉ ty.data) (h2 : c ∉ ts.data) :
    c ∉ file_stem ty ts := by
  simp only [file_stem, List.append_assoc, List.mem_append]
  rintro (h | h | h | h)
  exacts [hc1 h, h1 h, hc2 h, h2 h]

theorem file_stem_ne_nil (ty ts : String) : file_stem ty ts ≠ [] := by
  intro h
  have h2 := congrArg List.length h
  have hl : "copilot_".data.length = 8 := by decide
  simp only [file_stem, List.length_append, hl, List.length_nil] at h2
  omega

/-- C6: with format excel and the spreadsheet dependency unavailable, the
exporter never raises: it emits one warning and writes the payload as
JSON to the same base filename with the extension replaced by `.json`,
while still returning the generated `.xlsx` path. -/
theorem excel_fallback_json (outDir : List Char) (ty ts : String) (payload : JObj)
    (hty_dot : '.' ∉ ty.data) (hty_slash : '/' ∉ ty.data)
    (hts_dot : '.' ∉ ts.data) (hts_slash : '/' ∉ ts.data) :
    save_report "excel" false outDir ty ts payload
      = ([.wjson (outDir ++ '/' :: (file_stem ty ts ++ ".json".data)) payload], 1,
         outDir ++ '/' :: (file_stem ty ts ++ ".xlsx".data)) := by
  have hws := withSuffix_spec outDir (file_stem ty ts) "xlsx".data ".json".data
    (file_stem_not_mem '/' ty ts (by decide) (by decide) hty_slash hts_slash)
    (file_stem_not_mem '.' ty ts (by decide) (by decide) hty_dot hts_dot)
    (by decide) (by decide) (file_stem_ne_nil ty ts)
  have hstep : save_report "excel" false outDir ty ts payload
      = (save_json payload
          (withSuffix (outDir ++ '/' :: (file_stem ty ts ++ '.' :: "xlsx".data))
            ".json".data),
         1,
         outDir ++ '/' :: (file_stem ty ts ++ '.' :: "xlsx".data)) := rfl
  rw [hstep, hws]
  rfl

/-- Witness for C6 with a concrete directory, report type and timestamp. -/
theorem excel_fallback_json_witness :
    save_report "excel" false "./reports".data "seats" "20260101_120000" []
      = ([.wjson ("./reports".data
            ++ '/' :: (file_stem "seats" "20260101_120000" ++ ".json".data)) []], 1,
         "./reports".data
            ++ '/' :: (file_stem "seats" "20260101_120000" ++ ".xlsx".data)) :=
  excel_fallback_json "./reports".data "seats" "20260101_120000" []
    (by decide) (by decide) (by decide) (by decide)

/-- C10: `save_report` always returns (and prints) the path built from
the generated filename with the configured format's extension, even in
the two fallback branches (excel dependency missing, unknown format)
where the file actually written has its extension replaced by `.json`; in
those branches the returned path differs from the written path. -/
theorem save_report_returned_path :
    (∀ (fmt : String) (pandas : Bool) (outDir : List Char) (ty ts : String)
        (payload : JObj),
       (save_report fmt pandas outDir ty ts payload).2.2
         = outDir ++ '/' :: generate_filename fmt ty ts) ∧
    (∀ (outDir : List Char) (ty ts : String) (payload : JObj),
       '.' ∉ ty.data → '/' ∉ ty.data → '.' ∉ ts.data → '/' ∉ ts.data →
       (save_report "excel" false outDir ty ts payload).1
           = [.wjson (outDir ++ '/' :: (file_stem ty ts ++ ".json".data)) payload] ∧
         outDir ++ '/' :: (file_stem ty ts ++ ".json".data)
           ≠ (save_report "excel" false outDir ty ts payload).2.2) ∧
    (∀ (fmt : String) (pandas : Bool) (outDir : List Char) (ty ts : String)
        (payload : JObj),
       fmt ≠ "json" → fmt ≠ "csv" → fmt ≠ "excel" →
       '.' ∉ fmt.data → '/' ∉ fmt.data →
       '.' ∉ ty.data → '/' ∉ ty.data → '.' ∉ ts.data → '/' ∉ ts.data →
       (save_report fmt pandas outDir ty ts payload).1
           = [.wjson (outDir ++ '/' :: (file_stem ty ts ++ ".json".data)) payload] ∧
         outDir ++ '/' :: (file_stem ty ts ++ ".json".data)
           ≠ (save_report fmt pandas outDir ty ts payload).2.2) := by
  refine ⟨?_, ?_, ?_⟩
  · intro fmt pandas outDir ty ts payload
    simp only [save_report]
    split_ifs <;> rfl
  · intro outDir ty ts payload hty_dot hty_slash hts_dot hts_slash
    have hws := withSuffix_spec outDir (file_stem ty ts) "xlsx".data ".json".data
      (file_stem_not_mem '/' ty ts (by decide) (by decide) hty_slash hts_slash)
      (file_stem_not_mem '.' ty ts (by decide) (by decide) hty_dot hts_dot)
      (by decide) (by decide) (file_stem_ne_nil ty ts)
    have hstep : save_report "excel" false outDir ty ts payload
        = (save_json payload
            (withSuffix (outDir ++ '/' :: (file_stem ty ts ++ '.' :: "xlsx".data))
              ".json".data),
           1,
           outDir ++ '/' :: (file_stem ty ts ++ '.' :: "xlsx".data)) := rfl
    rw [hstep, hws]
    refine ⟨rfl, ?_⟩
    intro h
    have h1 := List.append_cancel_left h
    injection h1 with _ h2
    have h3 := List.append_cancel_left h2
    exact absurd h3 (by decide)
  · intro fmt pandas outDir ty ts payload hfj hfc hfe hfmt_dot hfmt_slash
      hty_dot hty_slash hts_dot hts_slash
    have hws := withSuffix_spec outDir (file_stem ty ts) fmt.data ".json".data
      (file_stem_not_mem '/' ty ts (by decide) (by decide) hty_slash hts_slash)
      (file_stem_not_mem '.' ty ts (by decide) (by decide) hty_dot hts_dot)
      hfmt_slash hfmt_dot (file_stem_ne_nil ty ts)
    have hgf : generate_filename fmt ty ts = file_stem ty ts ++ '.' :: fmt.data := by
      rw [generate_filename, if_neg hfe]
    have hstep : save_report fmt pandas outDir ty ts payload
        = (save_json payload
            (withSuffix (outDir ++ '/' :: generate_filename fmt ty ts) ".json".data),
           1,
           outDir ++ '/' :: generate_filename fmt ty ts) := by
      simp only [save_report]
      rw [if_neg hfj, if_neg hfc, if_neg hfe]
    rw [hstep, hgf, hws]
    refine ⟨rfl, ?_⟩
    intro h
    have h1 := List.append_cancel_left h
    injection h1 with _ h2
    have h3 := List.append_cancel_left h2
    rw [show (".json".data : List Char) = '.' :: "json".data from rfl] at h3
    injection h3 with _ h4
    exact hfj (congrArg String.mk h4.symm)

/-- Witness for C10 at a concrete directory, type and timestamp: the json
format, the excel-missing fallback and the unknown format "xml". -/
theorem save_report_returned_path_witness :
    (save_report "json" true "./reports".data "seats" "20260101_120000" []).2.2
      = "./reports".data ++ '/' :: generate_filename "json" "seats" "20260101_120000" ∧
    ((save_report "excel" false "./reports".data "seats" "20260101_120000" []).1
      = [.wjson ("./reports".data
          ++ '/' :: (file_stem "seats" "20260101_120000" ++ ".json".data)) []] ∧
      "./reports".data ++ '/' :: (file_stem "seats" "20260101_120000" ++ ".json".data)
        ≠ (save_report "excel" false "./reports".data "seats" "20260101_120000" []).2.2) ∧
    ((save_report "xml" true "./reports".data "seats" "20260101_120000" []).1
      = [.wjson ("./reports".data
          ++ '/' :: (file_stem "seats" "20260101_120000" ++ ".json".data)) []] ∧
      "./reports".data ++ '/' :: (file_stem "seats" "20260101_120000" ++ ".json".data)
        ≠ (save_report "xml" true "./reports".data "seats" "20260101_120000" []).2.2) :=
  ⟨save_report_returned_path.1 "json" true "./reports".data "seats" "20260101_120000" [],
   save_report_returned_path.2.1 "./reports".data "seats" "20260101_120000" []
     (by decide) (by decide) (by decide) (by decide),
   save_report_returned_path.2.2 "xml" true "./reports".data "seats" "20260101_120000" []
     (by decide) (by decide) (by decide) (by decide) (by decide)
     (by decide) (by decide) (by decide) (by decide)⟩

/-- C8: the seat detail status follows the priority: a truthy pending
cancellation date renders the cancellation-pending status even when a
last-activity timestamp is present; without a pending cancellation the
seat renders active when a last-activity timestamp is present (truthy)
and inactive otherwise. -/
theorem seat_status_priority (seat : JObj) :
    (truthy (jget seat "pending_cancellation_date" .jnull) = true →
       seat_status seat
         = .cancelPending (jget seat "pending_cancellation_date" .jnull)) ∧
    (truthy (jget seat "pending_cancellation_date" .jnull) = false →
       truthy (jget seat "last_activity_at" .jnull) = true →
       seat_status seat = .active) ∧
    (truthy (jget seat "pending_cancellation_date" .jnull) = false →
       truthy (jget seat "last_activity_at" .jnull) = false →
       seat_status seat = .inactive) := by
  refine ⟨fun h1 => ?_, fun h1 h2 => ?_, fun h1 h2 => ?_⟩
  · simp [seat_status, h1]
  · simp [seat_status, h1, h2]
  · simp [seat_status, h1, h2]

/-- Witness for C8: a seat with both dates renders cancellation-pending,
a seat with activity only renders active, a bare seat renders inactive. -/
theorem seat_status_priority_witness :
    seat_status wseat1 = .cancelPending (.jstr "2026-03-01") ∧
    seat_status wseat2 = .active ∧
    seat_status wseat3 = .inactive :=
  ⟨(seat_status_priority wseat1).1 rfl,
   (seat_status_priority wseat2).2.1 rfl rfl,
   (seat_status_priority wseat3).2.2 rfl rfl⟩


theorem seatsLoop_succ (api : Nat → Nat → Option JObj) (fuel page : Nat)
    (total : JVal) (acc : List JVal) :
    seatsLoop api (fuel + 1) page total acc =
      match api page 50 with
      | none => some none
      | some data =>
        let total2 := if page = 1 then jget data "total_seats" (.jnum 0) else total
        match jget data "seats" (.jarr []) with
        | .jarr seats =>
          if seats.length < 50 then some (some (total2, acc ++ seats))
          else seatsLoop api fuel (page + 1) total2 (acc ++ seats)
        | _ => some none := rfl

theorem seatsLoop_run (api : Nat → Nat → Option JObj) (S : Nat → List JVal) (n : Nat) :
    ∀ (p : Nat) (total : JVal) (acc : List JVal),
      2 ≤ p →
      (∀ i, p ≤ i → i < p + n → ∃ d, api i 50 = some d ∧
          jget d "seats" (.jarr []) = .jarr (S i) ∧ 50 ≤ (S i).length) →
      (∃ d, api (p + n) 50 = some d ∧
          jget d "seats" (.jarr []) = .jarr (S (p + n)) ∧ (S (p + n)).length < 50) →
      seatsLoop api (n + 1) p total acc
        = some (some (total, acc ++ ((List.range' p (n + 1)).map S).flatten)) := by
  induction n with
  | zero =>
    intro p total acc hp hfull hlast
    obtain ⟨d, hd, hseats, hlen⟩ := hlast
    rw [show p + 0 = p from rfl] at hd hseats hlen
    have hp1 : ¬(p = 1) := by omega
    rw [seatsLoop_succ, hd]
    dsimp only
    rw [hseats]
    dsimp only
    rw [if_neg hp1, if_pos hlen]
    simp [List.range']
  | succ n ih =>
    intro p total acc hp hfull hlast
    obtain ⟨d, hd, hseats, hlen⟩ := hfull p (le_refl p) (by omega)
    have hp1 : ¬(p = 1) := by omega
    have hnot : ¬((S p).length < 50) := by omega
    rw [seatsLoop_succ, hd]
    dsimp only
    rw [hseats]
    dsimp only
    rw [if_neg hp1, if_neg hnot]
    rw [ih (p + 1) total (acc ++ S p) (by omega)
      (fun i h1 h2 => hfull i (by omega) (by omega))
      (by
        have he : p + 1 + n = p + (n + 1) := by omega
        rw [he]
        exact hlast)]
    rw [show List.range' p (n + 1 + 1) = p :: List.range' (p + 1) (n + 1) from rfl]
    simp [List.append_assoc]

/-- C9: the seat listing requests pages with `per_page` fixed at 50
starting at page 1, stops exactly after the first page returning fewer
than 50 entries (fuel equal to that page count suffices), returns the
concatenation of all pages' seats in page order, and reports the
`total_seats` field of the first page only. -/
theorem billing_seats_pagination (api : Nat → Nat → Option JObj)
    (S : Nat → List JVal) (T : Nat → JVal) (k : Nat) (hk : 1 ≤ k)
    (hpages : ∀ i, 1 ≤ i → i ≤ k → ∃ d, api i 50 = some d ∧
        jget d "total_seats" (.jnum 0) = T i ∧
        jget d "seats" (.jarr []) = .jarr (S i))
    (hfull : ∀ i, 1 ≤ i → i < k → 50 ≤ (S i).length)
    (hlast : (S k).length < 50) :
    get_copilot_billing_seats api k
      = some (some (T 1, ((List.range' 1 k).map S).flatten)) := by
  obtain ⟨m, rfl⟩ : ∃ m, k = m + 1 := ⟨k - 1, by omega⟩
  obtain ⟨d1, hd1, htot1, hseats1⟩ := hpages 1 le_rfl (by omega)
  cases m with
  | zero =>
    have hlast1 : (S 1).length < 50 := by simpa using hlast
    rw [get_copilot_billing_seats, seatsLoop_succ, hd1]
    dsimp only
    rw [hseats1]
    dsimp only
    rw [if_pos rfl, htot1, if_pos hlast1]
    simp [List.range']
  | succ n =>
    have hfull1 := hfull 1 le_rfl (by omega)
    have hnot : ¬((S 1).length < 50) := by omega
    rw [get_copilot_billing_seats, seatsLoop_succ, hd1]
    dsimp only
    rw [hseats1]
    dsimp only
    rw [if_pos rfl, htot1, if_neg hnot]
    rw [show (1 : Nat) + 1 = 2 from rfl, List.nil_append]
    rw [seatsLoop_run api S n 2 (T 1) (S 1) (by omega)
      (fun i h1 h2 => by
        obtain ⟨d, hd, htot, hseats⟩ := hpages i (by omega) (by omega)
        exact ⟨d, hd, hseats, hfull i (by omega) (by omega)⟩)
      (by
        obtain ⟨d, hd, htot, hseats⟩ := hpages (n + 2) (by omega) (by omega)
        have he : (2 : Nat) + n = n + 2 := by omega
        rw [he]
        exact ⟨d, hd, hseats, hlast⟩)]
    rw [show List.range' 1 (n + 1 + 1) = 1 :: List.range' 2 (n + 1) from rfl]
    simp

/-- Witness for C9: two concrete pages, the first full with 50 seats and
total 101, the second short with 1 seat and a differing total 102; the
run returns the 51 concatenated seats and the first page's total only. -/
theorem billing_seats_pagination_witness :
    get_copilot_billing_seats wapi 2
      = some (some (.jnum 101, List.replicate 50 .jnull ++ [.jnull])) := by
  have h := billing_seats_pagination wapi wpageSeats wpageTotal 2 (by omega)
    (fun i h1 h2 =>
      ⟨[("total_seats", wpageTotal i), ("seats", .jarr (wpageSeats i))],
        rfl, rfl, rfl⟩)
    (fun i h1 h2 => by
      have hi : i = 1 := by omega
      subst hi
      simp [wpageSeats])
    (by simp [wpageSeats])
  simpa [wpageSeats, wpageTotal, List.range'] using h
